import Mathlib

/-!
Verification of the manga acquisition-and-assembly pipeline.

This file gives a shallow embedding, in Lean, of the parts of the
`kerbaras/mangas` Go repository that the checked properties concern:

* the EPUB document builder (`pkg/integrations`, `EPubBuilder`):
  `Init` / `Next` / `Done` session lifecycle, page sorting by ordinal
  index, filename sanitization;
* the download orchestrator (`pkg/services`, `Downloader.DownloadManga`):
  per-batch series-status bookkeeping over per-chapter outcomes;
* the Kindle export converter (`pkg/integrations`, `KindleConverter`):
  the external-tool conversion cascade;
* the image optimization pipeline (`pkg/integrations/kindle_image.go`):
  dimension calculation, contrast adjustment, gamma lookup table and the
  3x3 sharpen kernel.

Go machine integers are modelled as `ℕ`/`ℤ` with explicit wraparound
where the source performs unsigned arithmetic; Go `float64` values are
modelled as exact rationals `ℚ` (the source's float expressions here stay
well within ranges where rounding does not change the integer outcomes
under study, and the modelled claims are about the algebraic shape of the
computations).  External effects (file system, HTTP, the epub library)
are modelled as always succeeding or as explicit outcome oracles passed
in as parameters; each Go method that mutates its receiver is modelled as
a function returning the new state together with the Go return values.
-/

namespace Mangas

/-! ## Data model (`pkg/data`): `Manga` and `Chapter` records -/

/-- `data.Manga` (fields as used by the repository and its tests). -/
structure Manga where
  id : String
  name : String
  description : String
  coverURL : String
  sourceName : String
  status : String
deriving Repr, DecidableEq, Inhabited

/-- `data.Chapter` (fields as used by the repository and its tests). -/
structure Chapter where
  id : String
  mangaID : String
  title : String
  language : String
  volume : String
  number : String
  downloaded : Bool
  filePath : String
deriving Repr, DecidableEq, Inhabited

/-! ## `sanitizeFilename` and its string helpers

The Go source replaces each of nine invalid characters by an underscore
(nine sequential `strings.ReplaceAll` calls), then trims whitespace from
both ends (`strings.TrimSpace`), then trims dots from both ends
(`strings.Trim(result, ".")`).  Strings are modelled as `List Char`. -/

/-- The invalid filename characters replaced by `sanitizeFilename`. -/
def invalidFilenameChars : List Char :=
  ['/', '\\', ':', '*', '?', '"', '<', '>', '|']

/-- The nine sequential `strings.ReplaceAll(result, char, "_")` calls.
Each replaces every occurrence of one single character, so each call is a
`List.map`. -/
def replaceInvalid (s : List Char) : List Char :=
  invalidFilenameChars.foldl (fun acc c => acc.map fun x => if x = c then '_' else x) s

/-- The character set of Go's `unicode.IsSpace` (the White_Space
property): this is what `strings.TrimSpace` trims. -/
def goSpaceChars : List Char :=
  ['\t', '\n', '\u000B', '\u000C', '\r', ' ', '\u0085', '\u00A0',
   '\u1680', '\u2000', '\u2001', '\u2002', '\u2003', '\u2004', '\u2005',
   '\u2006', '\u2007', '\u2008', '\u2009', '\u200A', '\u2028', '\u2029',
   '\u202F', '\u205F', '\u3000']

/-- Go's `unicode.IsSpace`. -/
def goIsSpace (c : Char) : Bool := goSpaceChars.contains c

/-- Trailing-edge trim (drop the longest suffix whose characters satisfy
`p`), written by structural recursion. -/
def trimRight (p : Char → Bool) : List Char → List Char
  | [] => []
  | a :: l =>
    match trimRight p l with
    | [] => if p a then [] else [a]
    | b :: m => a :: b :: m

/-- Go's `strings.Trim` / `strings.TrimSpace` shape: drop from the left,
then from the right. -/
def goTrim (p : Char → Bool) (l : List Char) : List Char :=
  trimRight p (l.dropWhile p)

/-- `sanitizeFilename` from `pkg/integrations`: replace the nine invalid
characters with underscores, trim whitespace from the ends, then trim
dots from the ends. -/
def sanitizeFilename (s : List Char) : List Char :=
  goTrim (fun c => c = '.') (goTrim goIsSpace (replaceInvalid s))

/-- `sanitizeFilename` lifted to `String` (used in `Done`'s output path). -/
def sanitizeFilenameS (s : String) : String :=
  String.mk (sanitizeFilename s.toList)

/-! ## The EPUB document builder (`EPubBuilder`)

The builder's Go state is `outputDir`, a `*epub.Epub` handle (nil iff the
session is uninitialized — modelled by the `epubInit` flag), the current
manga/chapter, the accumulated images and the two optional covers.  The
temp-dir scratch area and the parsed HTML templates play no role in the
checked properties and always succeed, so they are not part of the state. -/

/-- `integrations.ImageData`: one page image. `Index` is a Go `int`. -/
structure ImageData where
  content : List ℕ
  contentType : String
  index : ℤ
deriving Repr, DecidableEq, Inhabited

/-- `integrations.CoverData`. -/
structure CoverData where
  content : List ℕ
  contentType : String
deriving Repr, DecidableEq, Inhabited

/-- `integrations.EPubBuilder` state. `epubInit` models `b.epub != nil`. -/
structure EPubBuilder where
  outputDir : String
  epubInit : Bool
  manga : Option Manga
  chapter : Option Chapter
  images : List ImageData
  chapterCover : Option CoverData
  mangaCover : Option CoverData
deriving Repr, DecidableEq, Inhabited

/-- `integrations.NewEPubBuilder`. -/
def NewEPubBuilder (outputDir : String) : EPubBuilder :=
  { outputDir := outputDir
    epubInit := false
    manga := none
    chapter := none
    images := []
    chapterCover := none
    mangaCover := none }

/-- `EPubBuilder.Init`.  Rejects a nil manga or chapter; otherwise
installs the pair, resets the accumulated images and covers, and creates
a fresh epub handle (temp-dir and epub creation are the always-succeeding
effects).  Returns the new state with the Go `error` value. -/
def EPubBuilder.Init (b : EPubBuilder) (manga : Option Manga) (chapter : Option Chapter) :
    EPubBuilder × Option String :=
  match manga with
  | none => (b, some "manga cannot be nil")
  | some m =>
    match chapter with
    | none => (b, some "chapter cannot be nil")
    | some c =>
      ({ b with
          manga := some m
          chapter := some c
          images := []
          chapterCover := none
          mangaCover := none
          epubInit := true }, none)

/-- `EPubBuilder.SetMangaCover`. -/
def EPubBuilder.SetMangaCover (b : EPubBuilder) (cover : CoverData) :
    EPubBuilder × Option String :=
  if b.epubInit = false then (b, some "builder not initialized, call Init first")
  else if cover.content = [] then (b, some "cover content is empty")
  else ({ b with mangaCover := some cover }, none)

/-- `EPubBuilder.SetChapterCover`. -/
def EPubBuilder.SetChapterCover (b : EPubBuilder) (cover : CoverData) :
    EPubBuilder × Option String :=
  if b.epubInit = false then (b, some "builder not initialized, call Init first")
  else if cover.content = [] then (b, some "cover content is empty")
  else ({ b with chapterCover := some cover }, none)

/-- `EPubBuilder.Next`: appends a page image to the accumulation buffer
after the three usage checks. -/
def EPubBuilder.Next (b : EPubBuilder) (image : ImageData) :
    EPubBuilder × Option String :=
  if b.epubInit = false then (b, some "builder not initialized, call Init first")
  else if image.content = [] then (b, some "image content is empty")
  else if image.contentType = "" then (b, some "image content type is required")
  else ({ b with images := b.images ++ [image] }, none)

/-- The comparison used by `Done`'s `sort.Slice` call: order page images
by ordinal index (the Go comparator is `images[i].Index < images[j].Index`,
whose induced sorted order is nondecreasing in `Index`). -/
def imageLE (a b : ImageData) : Prop := a.index ≤ b.index

instance : DecidableRel imageLE := fun a b => Int.decLe a.index b.index

instance : IsTotal ImageData imageLE := ⟨fun a b => Int.le_total a.index b.index⟩

instance : IsTrans ImageData imageLE := ⟨fun _ _ _ h₁ h₂ => le_trans h₁ h₂⟩

/-- The chapter title string built by `Done`: `"Chapter {number}"`, with a
`"Vol. {volume}, "` clause when the volume is neither empty nor `"0"`, and
a `": {title}"` clause when the title is nonempty. -/
def chapterTitleOf (c : Chapter) : String :=
  let t1 := "Chapter " ++ c.number
  let t2 := if c.volume ≠ "" ∧ c.volume ≠ "0" then "Vol. " ++ c.volume ++ ", " ++ t1 else t1
  if c.title ≠ "" then t2 ++ ": " ++ c.title else t2

/-- The observable outcome of a successful `Done` call: the output path
and the sequence of page images embedded into the container, in embed
order (plus whether a chapter-cover page was inserted before them). -/
structure DoneResult where
  path : String
  pages : List ImageData
  hasCoverPage : Bool
  title : String
deriving Repr, DecidableEq

/-- `EPubBuilder.Done`: after the two usage checks, sorts the accumulated
images by ordinal index, writes them into the container (all file and
epub-library effects succeed in the model), computes the sanitized output
filename, and resets the builder back to the uninitialized state.
The sort is modelled by `List.insertionSort imageLE`: `sort.Slice` with
the `<`-on-`Index` comparator produces some nondecreasing-by-`Index`
permutation of the input, and `insertionSort` is one such permutation
(when the indices are pairwise distinct the nondecreasing permutation is
unique, so the model is exact there). -/
def EPubBuilder.Done (b : EPubBuilder) : EPubBuilder × Except String DoneResult :=
  if b.epubInit = false then (b, Except.error "builder not initialized, call Init first")
  else if b.images = [] then (b, Except.error "no images added to chapter")
  else
    let sorted := List.insertionSort imageLE b.images
    let m := b.manga.getD default
    let c := b.chapter.getD default
    let safeTitle := sanitizeFilenameS m.name
    let safeCh := sanitizeFilenameS ("ch_" ++ c.number)
    let outputPath := b.outputDir ++ "/" ++ safeTitle ++ "_" ++ safeCh ++ ".epub"
    ({ b with
        epubInit := false
        manga := none
        chapter := none
        images := []
        chapterCover := none
        mangaCover := none },
     Except.ok
       { path := outputPath
         pages := sorted
         hasCoverPage := b.chapterCover.isSome
         title := chapterTitleOf c })

/-- Feed a list of pages to the builder by successive `Next` calls,
stopping at the first error (as the chapter downloader does). -/
def feedAll : EPubBuilder → List ImageData → EPubBuilder × Option String
  | b, [] => (b, none)
  | b, img :: rest =>
    match b.Next img with
    | (b', none) => feedAll b' rest
    | (b', some e) => (b', some e)

/-! ## The download orchestrator (`services.Downloader.DownloadManga`)

`DownloadManga` saves the manga with status `"downloading"`, resolves the
chapter list when none was given, runs `DownloadChapter` for every
chapter under a 3-slot semaphore collecting each failure into an error
channel sized `len(chapters)` (so no error is dropped), waits for all
workers, sets the status to `"partial"` when any chapter failed and
`"completed"` otherwise, saves again (ignoring that save's error), and
returns `nil`.  The persisted status depends only on the set of
per-chapter outcomes, not on worker interleaving, so the concurrent fan-out
is modelled by evaluating a per-chapter outcome oracle over the chapter
list.  Repository saves are modelled by a save-outcome oracle per call
plus a log of successfully saved records. -/

/-- The repository's persisted state: the log of successful `SaveManga`
calls, in order. -/
structure RepoState where
  savedMangas : List Manga
deriving Repr, DecidableEq

/-- One `repo.SaveManga` call: `outcome` is that call's error oracle; a
successful call appends the record to the log. -/
def saveManga (repo : RepoState) (outcome : Option String) (m : Manga) :
    RepoState × Option String :=
  match outcome with
  | some e => (repo, some e)
  | none => ({ savedMangas := repo.savedMangas ++ [m] }, none)

/-- The manga status most recently persisted. -/
def persistedStatus (repo : RepoState) : Option String :=
  repo.savedMangas.getLast?.map Manga.status

/-- `Downloader.DownloadManga`.  `save1` / `save2` are the outcome
oracles of the two `SaveManga` calls, `getChaptersRes` the outcome of
`source.GetChapters`, and `chapterErr` the outcome of `DownloadChapter`
for each chapter (`none` = success). -/
def DownloadManga (save1 save2 : Option String)
    (getChaptersRes : Except String (List Chapter))
    (chapterErr : Chapter → Option String)
    (repo : RepoState) (manga : Option Manga) (chapters : List Chapter) :
    RepoState × Except String Unit :=
  match manga with
  | none => (repo, Except.error "manga cannot be nil")
  | some m0 =>
    let m1 := { m0 with status := "downloading" }
    match saveManga repo save1 m1 with
    | (_, some e) => (repo, Except.error ("failed to save manga: " ++ e))
    | (repo1, none) =>
      let chaptersRes : Except String (List Chapter) :=
        if chapters = [] then getChaptersRes else Except.ok chapters
      match chaptersRes with
      | Except.error e => (repo1, Except.error ("failed to get chapters: " ++ e))
      | Except.ok chs =>
        let downloadErrors := chs.filterMap chapterErr
        let m2 := { m1 with status := if downloadErrors ≠ [] then "partial" else "completed" }
        let repo2 := (saveManga repo1 save2 m2).1
        (repo2, Except.ok ())

/-! ## The Kindle converter's format-conversion cascade
(`KindleConverter.convertFormat`)

`convertFormat` computes the output path by swapping the output path's
extension for the requested format, then tries Calibre's `ebook-convert`;
if that fails it tries Amazon's `kindlegen`, but only when the requested
format is MOBI; when every tried tool fails it returns the native EPUB
path together with a "no conversion tool available" error.  Tool
availability/success is modelled by two boolean oracles, and the list of
tools actually invoked is recorded. -/

/-- `integrations.KindleFormat`. -/
abbrev KindleFormat := String

/-- `integrations.FormatMOBI`. -/
def FormatMOBI : KindleFormat := "mobi"

/-- `integrations.FormatAZW3`. -/
def FormatAZW3 : KindleFormat := "azw3"

/-- `integrations.FormatKFX`. -/
def FormatKFX : KindleFormat := "kfx"

/-- The fields of `integrations.ExportOptions` that `convertFormat`
reads. -/
structure ExportOptions where
  format : KindleFormat
  outputPath : String
deriving Repr, DecidableEq

/-- `filepath.Ext`: the suffix beginning at the final dot in the final
path element (empty when that element has no dot).  Implemented by
walking the path from its end. -/
def goPathExtAux : List Char → List Char → List Char
  | _, [] => []
  | acc, c :: rest =>
    if c = '.' then c :: acc
    else if c = '/' then []
    else goPathExtAux (c :: acc) rest

/-- `filepath.Ext` on a `List Char` path. -/
def goPathExt (s : List Char) : List Char := goPathExtAux [] s.reverse

/-- `strings.TrimSuffix`. -/
def goTrimSuffixL (s suf : List Char) : List Char :=
  if suf.isSuffixOf s then s.take (s.length - suf.length) else s

/-- The observable outcome of one `convertFormat` call: which external
tools were invoked (in order), the returned path, and the returned
error. -/
structure ConvOutcome where
  attempts : List String
  path : String
  errMsg : Option String
deriving Repr, DecidableEq

/-- `KindleConverter.convertFormat`.  `calibreOk` / `kindlegenOk` are the
outcome oracles of running `ebook-convert` / `kindlegen` (false covers
both "binary missing" and "non-zero exit"). -/
def convertFormat (calibreOk kindlegenOk : Bool) (epubPath : String)
    (options : ExportOptions) : ConvOutcome :=
  let outList := goTrimSuffixL options.outputPath.toList (goPathExt options.outputPath.toList)
  let outputPath := String.mk outList ++ "." ++ options.format
  if calibreOk then
    { attempts := ["ebook-convert"], path := outputPath, errMsg := none }
  else if options.format = FormatMOBI then
    if kindlegenOk then
      { attempts := ["ebook-convert", "kindlegen"], path := outputPath, errMsg := none }
    else
      { attempts := ["ebook-convert", "kindlegen"], path := epubPath
        errMsg := some "no conversion tool available (tried ebook-convert, kindlegen). Please install Calibre or use EPUB format" }
  else
    { attempts := ["ebook-convert"], path := epubPath
      errMsg := some "no conversion tool available (tried ebook-convert, kindlegen). Please install Calibre or use EPUB format" }

/-! ## The image optimization pipeline (`kindle_image.go`)

8-bit channel values are `ℕ` (meant to lie in `0..255`); Go `float64`
arithmetic is modelled exactly over `ℚ`.  Go's conversion of a
nonnegative float to an integer type truncates, i.e. takes the floor. -/

/-- `ImageOptimizationSettings` (Go ints as `ℤ`, floats as `ℚ`). -/
structure ImageOptimizationSettings where
  maxWidth : ℤ
  maxHeight : ℤ
  quality : ℤ
  grayscale : Bool
  sharpen : Bool
  contrast : ℚ
  gamma : ℚ
  format : String
  stripMetadata : Bool
deriving Repr, DecidableEq

/-- Go's `int(f)` conversion for a `float64`: truncation toward zero. -/
def goIntOfRat (q : ℚ) : ℤ :=
  if q < 0 then -(⌊-q⌋) else ⌊q⌋

/-! ### IEEE-754 binary64 rounding

`calculateDimensions` does its scaling in Go `float64`.  For the
positive, normal-range magnitudes this code produces, an IEEE-754
binary64 operation returns the exact rational result rounded to 53
significant bits, round-to-nearest with ties to even; `roundDouble`
implements exactly that rounding on `ℚ`.  (Subnormals, overflow and
signed zero are far outside the ranges dimension arithmetic reaches;
the integer operands are below 2^53, so their conversions to `float64`
are exact, and `float64` comparison is exact on the rounded values.) -/

/-- Round to the nearest integer, ties to even (the IEEE-754 default
rounding of a scaled significand). -/
def roundHalfEven (m : ℚ) : ℤ :=
  if m - ⌊m⌋ < 1/2 then ⌊m⌋
  else if 1/2 < m - ⌊m⌋ then ⌊m⌋ + 1
  else if ⌊m⌋ % 2 = 0 then ⌊m⌋ else ⌊m⌋ + 1

/-- The exact rational value of the `float64` nearest to `q` (normal
range): scale into `[2^52, 2^53)`, round the significand to an integer
(ties to even), scale back.  Negative inputs round by sign symmetry. -/
def roundDouble (q : ℚ) : ℚ :=
  if q = 0 then 0
  else if q < 0 then
    -((roundHalfEven ((-q) * 2 ^ (52 - Int.log 2 (-q))) : ℚ) *
      2 ^ (Int.log 2 (-q) - 52))
  else
    (roundHalfEven (q * 2 ^ (52 - Int.log 2 q)) : ℚ) * 2 ^ (Int.log 2 q - 52)

/-- `ImageProcessor.calculateDimensions`: no resize when the source
already fits both bounds; otherwise scale both dimensions by the smaller
of the two bound ratios (`scale` starts as `widthScale` and is replaced
by `heightScale` when that is smaller), truncating to integer pixels.
Each `float64` division and multiplication is exact rational arithmetic
followed by `roundDouble`. -/
def calculateDimensions (s : ImageOptimizationSettings) (width height : ℤ) : ℤ × ℤ :=
  if width ≤ s.maxWidth ∧ height ≤ s.maxHeight then (width, height)
  else if roundDouble ((s.maxHeight : ℚ) / (height : ℚ)) <
      roundDouble ((s.maxWidth : ℚ) / (width : ℚ)) then
    (goIntOfRat (roundDouble ((width : ℚ) * roundDouble ((s.maxHeight : ℚ) / (height : ℚ)))),
     goIntOfRat (roundDouble ((height : ℚ) * roundDouble ((s.maxHeight : ℚ) / (height : ℚ)))))
  else
    (goIntOfRat (roundDouble ((width : ℚ) * roundDouble ((s.maxWidth : ℚ) / (width : ℚ)))),
     goIntOfRat (roundDouble ((height : ℚ) * roundDouble ((s.maxWidth : ℚ) / (width : ℚ)))))

/-- `ImageProcessor.adjustChannel` exactly as the Go source computes it:
`value` is a `uint8`, so the subtraction `value - 128` wraps modulo 256
before the widening conversion to `float64`. -/
def adjustChannel (value : ℕ) (factor : ℚ) : ℕ :=
  let diff : ℕ := (value + 128) % 256
  let adjusted : ℚ := (diff : ℚ) * factor + 128
  if adjusted < 0 then 0
  else if 255 < adjusted then 255
  else (⌊adjusted⌋).toNat

/-- The contrast remap the specification describes:
`clamp(128 + (v - 128) * factor, 0, 255)` with `(v - 128)` the signed
integer difference (written from the spec's words, for comparison with
`adjustChannel`). -/
def adjustChannelSpec (value : ℕ) (factor : ℚ) : ℕ :=
  let adjusted : ℚ := 128 + ((value : ℚ) - 128) * factor
  if adjusted < 0 then 0
  else if 255 < adjusted then 255
  else (⌊adjusted⌋).toNat

/-- The source's `pow` helper: exact for exponents `1` and `2`, and
otherwise the loop `for i := 0; i < int(absY*10); i++ { result *= x }`,
i.e. `x ^ (int(|y| * 10))`, inverted for negative `y`. -/
def powApprox (x y : ℚ) : ℚ :=
  if y = 1 then x
  else if y = 2 then x * x
  else
    let absY := if y < 0 then -y else y
    let n : ℕ := (⌊absY * 10⌋).toNat
    let result := x ^ n
    if y < 0 then 1 / result else result

/-- One entry of `adjustGamma`'s 256-entry lookup table:
`corrected := 255.0 * pow(i/255, 1/gamma)`, clamped above at 255, then
converted to `uint8` (truncation; the value is nonnegative for the
positive gammas the processor uses). -/
def gammaTableEntry (gamma : ℚ) (i : ℕ) : ℕ :=
  let normalized : ℚ := (i : ℚ) / 255
  let corrected0 := 255 * powApprox normalized (1 / gamma)
  let corrected := if 255 < corrected0 then 255 else corrected0
  (⌊corrected⌋).toNat

/-- The closed form of the table entry the source actually computes for a
positive gamma with `1/gamma ∉ {1, 2}`: `255 * (i/255)^(int(10/gamma))`,
truncated to an integer (no clamping fires for `i ≤ 255`). -/
def gammaTableEntryApprox (gamma : ℚ) (i : ℕ) : ℕ :=
  (⌊(255 : ℚ) * ((i : ℚ) / 255) ^ (⌊(10 : ℚ) / gamma⌋).toNat⌋).toNat

/-- One RGBA pixel, 8-bit channels.  `default` is the zero value an
`image.RGBA` buffer holds before being written (and what `At` yields out
of bounds). -/
structure Pixel where
  r : ℕ
  g : ℕ
  b : ℕ
  a : ℕ
deriving Repr, DecidableEq

instance : Inhabited Pixel := ⟨⟨0, 0, 0, 0⟩⟩

/-- An image over the bounds `[0, w) × [0, h)` (Go bounds with
`Min = (0,0)`, as every image constructed in this pipeline has). -/
structure GoImage where
  w : ℕ
  h : ℕ
  pix : ℕ → ℕ → Pixel

/-- `img.At(x, y)` (8-bit view): the stored pixel in bounds, the zero
color outside. -/
def atPix (img : GoImage) (x y : ℕ) : Pixel :=
  if x < img.w ∧ y < img.h then img.pix x y else default

/-- The `clamp` helper of `kindle_image.go` (the accumulator is an
`int32`, modelled as `ℤ`). -/
def clamp (value : ℤ) : ℕ :=
  if value < 0 then 0
  else if 255 < value then 255
  else value.toNat

/-- The eight neighbor offsets of the 3×3 sharpening kernel, in the
order the Go double loop visits them. -/
def neighborOffsets : List (ℤ × ℤ) :=
  [(-1, -1), (0, -1), (1, -1), (-1, 0), (1, 0), (-1, 1), (0, 1), (1, 1)]

/-- Sum of one channel over the eight neighbors of `(x, y)`. -/
def neighborSum (ch : Pixel → ℕ) (img : GoImage) (x y : ℕ) : ℤ :=
  neighborOffsets.foldl
    (fun s d => s + (ch (atPix img ((x : ℤ) + d.1).toNat ((y : ℤ) + d.2).toNat) : ℤ)) 0

/-- One channel of one interior pixel after the sharpen kernel: center
weighted 9, the eight neighbors weighted −1, clamped to `0..255`. -/
def sharpenChannel (ch : Pixel → ℕ) (img : GoImage) (x y : ℕ) : ℕ :=
  clamp (9 * (ch (atPix img x y) : ℤ) - neighborSum ch img x y)

/-- `ImageProcessor.sharpen`: convolve the interior (the Go loops run
`x` from `1` to `w-2` and `y` from `1` to `h-2`), copy every other
in-bounds pixel unchanged (the edge-copy loops), keep the center pixel's
alpha for interior pixels. -/
def sharpen (img : GoImage) : GoImage :=
  { w := img.w
    h := img.h
    pix := fun x y =>
      if x < img.w ∧ y < img.h then
        if 1 ≤ x ∧ x + 1 < img.w ∧ 1 ≤ y ∧ y + 1 < img.h then
          { r := sharpenChannel Pixel.r img x y
            g := sharpenChannel Pixel.g img x y
            b := sharpenChannel Pixel.b img x y
            a := (atPix img x y).a }
        else atPix img x y
      else default }

/-! ## Concrete fixtures used in witness instantiations -/

/-- A concrete manga record. -/
def mW : Manga :=
  { id := "m1", name := "Test Manga", description := "", coverURL := ""
    sourceName := "mangadex", status := "new" }

/-- A concrete chapter record. -/
def cW : Chapter :=
  { id := "c1", mangaID := "m1", title := "", language := "en"
    volume := "", number := "3", downloaded := false, filePath := "" }

/-- A concrete mid-session builder: initialized, with one accumulated
page and a chapter cover. -/
def bMid : EPubBuilder :=
  { outputDir := "out", epubInit := true, manga := some mW, chapter := some cW
    images := [⟨[1], "image/jpeg", 0⟩], chapterCover := some ⟨[2], "image/png"⟩
    mangaCover := none }

/-! ## C2: builder usage errors -/

/-- C2: any `Next()` or `Done()` call on a builder whose `Init` has not
succeeded returns an error, `Done()` on an initialized builder with zero
accumulated pages returns an error, and in each of these cases the
builder's accumulated state is returned unchanged. -/
theorem builder_usage_errors (b1 b2 : EPubBuilder) (img : ImageData)
    (h1 : b1.epubInit = false) (h2 : b2.epubInit = true) (h3 : b2.images = []) :
    b1.Next img = (b1, some "builder not initialized, call Init first") ∧
    b1.Done = (b1, Except.error "builder not initialized, call Init first") ∧
    b2.Done = (b2, Except.error "no images added to chapter") := by
  refine ⟨?_, ?_, ?_⟩
  · simp [EPubBuilder.Next, h1]
  · simp [EPubBuilder.Done, h1]
  · simp [EPubBuilder.Done, h2, h3]

/-- Witness for `builder_usage_errors`: a fresh builder (uninitialized)
and a freshly initialized builder with no pages. -/
theorem builder_usage_errors_witness :
    (NewEPubBuilder "out").Next ⟨[1], "image/jpeg", 0⟩ =
      (NewEPubBuilder "out", some "builder not initialized, call Init first") ∧
    (NewEPubBuilder "out").Done =
      (NewEPubBuilder "out", Except.error "builder not initialized, call Init first") ∧
    ((NewEPubBuilder "out").Init (some mW) (some cW)).1.Done =
      (((NewEPubBuilder "out").Init (some mW) (some cW)).1,
        Except.error "no images added to chapter") :=
  builder_usage_errors (NewEPubBuilder "out")
    ((NewEPubBuilder "out").Init (some mW) (some cW)).1
    ⟨[1], "image/jpeg", 0⟩ rfl rfl rfl

/-! ## C10: `Init` on a mid-session builder -/

/-- C10: calling `Init` on a builder that is already mid-session succeeds
and discards all previously accumulated pages and covers, leaving a fresh
empty session for the new series/chapter. -/
theorem init_resets_midsession (b : EPubBuilder) (m : Manga) (c : Chapter)
    (hmid : b.epubInit = true) :
    b.Init (some m) (some c) =
      ({ b with
          manga := some m
          chapter := some c
          images := []
          chapterCover := none
          mangaCover := none
          epubInit := true }, none) := by
  simp [EPubBuilder.Init]

/-- Witness for `init_resets_midsession` at a concrete mid-session
builder holding a page and a cover. -/
theorem init_resets_midsession_witness :
    bMid.Init (some mW) (some cW) =
      ({ bMid with
          manga := some mW
          chapter := some cW
          images := []
          chapterCover := none
          mangaCover := none
          epubInit := true }, none) :=
  init_resets_midsession bMid mW cW rfl

/-! ## C5: the contrast channel remap -/

/-- C5 (code defect): at channel value 0 with the device-default contrast
factor 1.1, the source's `adjustChannel` returns 255 — the `uint8`
subtraction `value - 128` wraps around, so black is mapped to white —
while the documented remap `clamp(128 + (v - 128)*factor, 0, 255)` with a
signed difference returns 0. -/
theorem adjustChannel_wraparound :
    adjustChannel 0 (11/10) = 255 ∧ adjustChannelSpec 0 (11/10) = 0 := by
  constructor
  · norm_num [adjustChannel]
  · norm_num [adjustChannelSpec]

/-! ## C4: the external conversion cascade -/

/-- C4 (counterexample): requested format `"azw3"` differs from the
native `"epub"`, the first tool fails and the second tool is available,
yet `convertFormat` invokes only the first tool and returns the native
path with an error: the cascade to the second tool does not happen for
non-MOBI formats. -/
theorem convertFormat_no_cascade_azw3 :
    (convertFormat false true "native.epub"
        { format := FormatAZW3, outputPath := "o.azw3" }).attempts = ["ebook-convert"] ∧
    (convertFormat false true "native.epub"
        { format := FormatAZW3, outputPath := "o.azw3" }).path = "native.epub" ∧
    (convertFormat false true "native.epub"
        { format := FormatAZW3, outputPath := "o.azw3" }).errMsg.isSome = true := by
  decide

/-- C4 (amended): for a requested format other than the native `"epub"`,
the converter always tries the first tool; when the first tool fails it
tries the second tool if and only if the requested format is MOBI; and
whenever every tool it tried has failed, it returns the native-format
container path alongside a "no converter available" error (and no error
when some tried tool succeeded). -/
theorem convertFormat_cascade (calibreOk kindlegenOk : Bool) (epubPath : String)
    (options : ExportOptions) (hfmt : options.format ≠ "epub") :
    ((convertFormat calibreOk kindlegenOk epubPath options).attempts =
      if calibreOk = false ∧ options.format = FormatMOBI then ["ebook-convert", "kindlegen"]
      else ["ebook-convert"]) ∧
    (calibreOk = false → (options.format = FormatMOBI → kindlegenOk = false) →
      (convertFormat calibreOk kindlegenOk epubPath options).path = epubPath ∧
      (convertFormat calibreOk kindlegenOk epubPath options).errMsg.isSome = true) ∧
    (calibreOk = true ∨ (options.format = FormatMOBI ∧ kindlegenOk = true) →
      (convertFormat calibreOk kindlegenOk epubPath options).errMsg = none) := by
  cases calibreOk <;> cases kindlegenOk <;>
    by_cases h : options.format = FormatMOBI <;>
      simp [convertFormat, h]

/-- Witness for `convertFormat_cascade`: MOBI requested, both tools
failing — both are attempted in order, then the native path is returned
with the error. -/
theorem convertFormat_cascade_witness :
    (convertFormat false false "n.epub"
        { format := FormatMOBI, outputPath := "o.mobi" }).attempts =
      ["ebook-convert", "kindlegen"] ∧
    (convertFormat false false "n.epub"
        { format := FormatMOBI, outputPath := "o.mobi" }).path = "n.epub" ∧
    (convertFormat false false "n.epub"
        { format := FormatMOBI, outputPath := "o.mobi" }).errMsg.isSome = true := by
  have h := convertFormat_cascade false false "n.epub"
    { format := FormatMOBI, outputPath := "o.mobi" } (by decide)
  refine ⟨?_, (h.2.1 rfl fun _ => rfl).1, (h.2.1 rfl fun _ => rfl).2⟩
  simpa using h.1

/-! ## C6: the sharpen kernel -/

/-- A 3×3 test image: uniform gray 100 except the two corners `(0,0)`
(gray 99) and `(2,2)` (gray 101).  The center's 3×3 neighborhood is not
uniform, yet the neighbor sum is `8 · 100`, so sharpening leaves the
center unchanged. -/
def cImg : GoImage :=
  { w := 3, h := 3
    pix := fun x y =>
      if x = 0 ∧ y = 0 then ⟨99, 99, 99, 255⟩
      else if x = 2 ∧ y = 2 then ⟨101, 101, 101, 255⟩
      else ⟨100, 100, 100, 255⟩ }

/-- C6 (counterexample): an interior pixel whose 3×3 neighborhood is
non-uniform can still be byte-identical to the input after sharpening
(center 100 with neighbors summing to 800). -/
theorem sharpen_nonuniform_fixed_point :
    (sharpen cImg).pix 1 1 = cImg.pix 1 1 ∧ cImg.pix 0 0 ≠ cImg.pix 1 1 := by
  decide

/-! ## C9: idempotence of `sanitizeFilename`

Trimming dots can expose whitespace at the ends (the source trims
whitespace before dots), so a second application can trim further; on
whitespace-free strings the sanitizer is idempotent.  The lemmas below
establish the behavior of the trim and replace helpers. -/

theorem trimRight_subset (p : Char → Bool) :
    ∀ l : List Char, ∀ c ∈ trimRight p l, c ∈ l := by
  intro l
  induction l with
  | nil => intro c hc; simpa [trimRight] using hc
  | cons a l ih =>
    intro c hc
    rw [trimRight] at hc
    cases h : trimRight p l with
    | nil =>
      rw [h] at hc
      by_cases hpa : p a
      · simp [hpa] at hc
      · simp [hpa] at hc
        simp [hc]
    | cons b m =>
      rw [h] at hc
      simp only [List.mem_cons] at hc
      rcases hc with rfl | hc
      · exact List.mem_cons_self _ _
      · exact List.mem_cons_of_mem _ (ih c (h ▸ List.mem_cons.mpr hc))

theorem trimRight_eq_self {p : Char → Bool} :
    ∀ {l : List Char}, (∀ c ∈ l, p c = false) → trimRight p l = l := by
  intro l
  induction l with
  | nil => intro _; rfl
  | cons a l ih =>
    intro h
    have ha : p a = false := h a (List.mem_cons_self a l)
    have hl : trimRight p l = l := ih fun c hc => h c (List.mem_cons_of_mem a hc)
    rw [trimRight, hl]
    cases l with
    | nil => simp [ha]
    | cons b m => rfl

theorem head?_trimRight (p : Char → Bool) :
    ∀ l : List Char, trimRight p l = [] ∨ (trimRight p l).head? = l.head? := by
  intro l
  induction l with
  | nil => left; rfl
  | cons a l _ =>
    cases h : trimRight p l with
    | nil =>
      by_cases hpa : p a
      · left; rw [trimRight, h]; simp [hpa]
      · right; rw [trimRight, h]; simp [hpa]
    | cons b m =>
      right
      rw [trimRight, h]
      rfl

theorem trimRight_idem (p : Char → Bool) :
    ∀ l : List Char, trimRight p (trimRight p l) = trimRight p l := by
  intro l
  induction l with
  | nil => rfl
  | cons a l ih =>
    cases h : trimRight p l with
    | nil =>
      by_cases hpa : p a
      · rw [trimRight, h]; simp [hpa, trimRight]
      · rw [trimRight, h]; simp [hpa, trimRight]
    | cons b m =>
      have h2 : trimRight p (b :: m) = b :: m := h ▸ ih
      rw [trimRight, h]
      simp only []
      rw [trimRight, h2]

theorem dropWhile_head_false (p : Char → Bool) :
    ∀ l : List Char, ∀ c, (l.dropWhile p).head? = some c → p c = false := by
  intro l
  induction l with
  | nil => intro c hc; simp [List.dropWhile] at hc
  | cons a l ih =>
    intro c hc
    rw [List.dropWhile_cons] at hc
    by_cases hpa : p a
    · rw [if_pos hpa] at hc; exact ih c hc
    · rw [if_neg hpa] at hc
      simp only [List.head?_cons, Option.some.injEq] at hc
      subst hc
      simpa using hpa

theorem dropWhile_eq_self_of_head (p : Char → Bool) (l : List Char)
    (h : ∀ c, l.head? = some c → p c = false) : l.dropWhile p = l := by
  cases l with
  | nil => rfl
  | cons a l =>
    have := h a rfl
    simp [List.dropWhile_cons, this]

theorem goTrim_subset (p : Char → Bool) (l : List Char) :
    ∀ c ∈ goTrim p l, c ∈ l := by
  intro c hc
  have h1 : c ∈ l.dropWhile p := trimRight_subset p _ c hc
  exact (List.dropWhile_sublist p).subset h1

theorem goTrim_eq_self {p : Char → Bool} {l : List Char}
    (h : ∀ c ∈ l, p c = false) : goTrim p l = l := by
  unfold goTrim
  rw [dropWhile_eq_self_of_head p l fun c hc => h c (by
    cases l with
    | nil => simp at hc
    | cons a l => simp only [List.head?_cons, Option.some.injEq] at hc; simp [hc])]
  exact trimRight_eq_self h

theorem goTrim_idem (p : Char → Bool) (l : List Char) :
    goTrim p (goTrim p l) = goTrim p l := by
  unfold goTrim
  have h1 : ∀ c, (trimRight p (l.dropWhile p)).head? = some c → p c = false := by
    intro c hc
    rcases head?_trimRight p (l.dropWhile p) with h | h
    · rw [h] at hc; simp at hc
    · rw [h] at hc; exact dropWhile_head_false p l c hc
  rw [dropWhile_eq_self_of_head p _ h1, trimRight_idem]

theorem mem_foldl_replace {q : Char → Bool} (hq : q '_' = false) :
    ∀ (cs s : List Char), (∀ c ∈ s, q c = false) →
      ∀ c ∈ cs.foldl (fun acc ch => acc.map fun x => if x = ch then '_' else x) s,
        q c = false := by
  intro cs
  induction cs with
  | nil => intro s hs c hc; exact hs c hc
  | cons ch cs ih =>
    intro s hs c hc
    rw [List.foldl_cons] at hc
    refine ih _ ?_ c hc
    intro d hd
    rcases List.mem_map.mp hd with ⟨e, he, rfl⟩
    by_cases h : e = ch
    · simpa [h] using hq
    · simpa [h] using hs e he

theorem mem_foldl_replace_shape :
    ∀ (cs s : List Char) (c : Char),
      c ∈ cs.foldl (fun acc ch => acc.map fun x => if x = ch then '_' else x) s →
      c = '_' ∨ (c ∈ s ∧ c ∉ cs) := by
  intro cs
  induction cs with
  | nil =>
    intro s c hc
    right
    exact ⟨hc, by simp⟩
  | cons ch cs ih =>
    intro s c hc
    rw [List.foldl_cons] at hc
    rcases ih _ c hc with h | ⟨hmem, hnot⟩
    · left; exact h
    · rcases List.mem_map.mp hmem with ⟨e, he, heq⟩
      by_cases h : e = ch
      · left; rw [← heq]; simp [h]
      · right
        have hce : c = e := by rw [← heq]; simp [h]
        subst hce
        refine ⟨he, ?_⟩
        simp only [List.mem_cons, not_or]
        exact ⟨h, hnot⟩

theorem foldl_replace_eq_self :
    ∀ (cs s : List Char), (∀ c ∈ s, c ∉ cs) →
      cs.foldl (fun acc ch => acc.map fun x => if x = ch then '_' else x) s = s := by
  intro cs
  induction cs with
  | nil => intro s _; rfl
  | cons ch cs ih =>
    intro s hs
    have hmap : s.map (fun x => if x = ch then '_' else x) = s := by
      induction s with
      | nil => rfl
      | cons a t iht =>
        have ha : a ≠ ch := fun h =>
          hs a (List.mem_cons_self a t) (h ▸ List.mem_cons_self ch cs)
        simp only [List.map_cons, if_neg ha]
        rw [iht fun c hc => hs c (List.mem_cons_of_mem a hc)]
    rw [List.foldl_cons, hmap]
    exact ih s fun c hc hmem => hs c hc (List.mem_cons_of_mem ch hmem)

/-- C9 (counterexample): `sanitizeFilename ". .a"` is `" .a"`, and
sanitizing that again gives `"a"`: trimming the edge dots exposes new
edge whitespace, which only a second pass removes. -/
theorem sanitizeFilename_not_idempotent :
    sanitizeFilename (sanitizeFilename ['.', ' ', '.', 'a']) ≠
      sanitizeFilename ['.', ' ', '.', 'a'] := by
  decide

/-- C9 (amended): `sanitizeFilename` is idempotent on every string that
contains no whitespace character. -/
theorem sanitizeFilename_idempotent_of_no_space (s : List Char)
    (hs : ∀ c ∈ s, goIsSpace c = false) :
    sanitizeFilename (sanitizeFilename s) = sanitizeFilename s := by
  unfold sanitizeFilename
  have h0 : ∀ c ∈ replaceInvalid s, goIsSpace c = false :=
    mem_foldl_replace (by decide) invalidFilenameChars s hs
  rw [goTrim_eq_self h0]
  have h2 : ∀ c ∈ goTrim (fun c => c = '.') (replaceInvalid s),
      c ∉ invalidFilenameChars := by
    intro c hc hmem
    rcases mem_foldl_replace_shape invalidFilenameChars s c
        (goTrim_subset _ _ c hc) with h | ⟨_, hnot⟩
    · rw [h] at hmem; simp [invalidFilenameChars] at hmem
    · exact hnot hmem
  have h3 : replaceInvalid (goTrim (fun c => c = '.') (replaceInvalid s)) =
      goTrim (fun c => c = '.') (replaceInvalid s) :=
    foldl_replace_eq_self invalidFilenameChars _ h2
  rw [h3]
  have h4 : goTrim goIsSpace (goTrim (fun c => c = '.') (replaceInvalid s)) =
      goTrim (fun c => c = '.') (replaceInvalid s) :=
    goTrim_eq_self fun c hc => h0 c (goTrim_subset _ _ c hc)
  rw [h4, goTrim_idem]

/-- Witness for `sanitizeFilename_idempotent_of_no_space` on a concrete
whitespace-free string containing invalid characters. -/
theorem sanitizeFilename_idempotent_witness :
    sanitizeFilename (sanitizeFilename ['T', 'e', 's', 't', ':', 'a', '.']) =
      sanitizeFilename ['T', 'e', 's', 't', ':', 'a', '.'] :=
  sanitizeFilename_idempotent_of_no_space ['T', 'e', 's', 't', ':', 'a', '.'] (by decide)

/-! ## C1: page ordering in `Done` -/

/-- A successful `Next` call appends exactly the fed page. -/
theorem next_ok {b b' : EPubBuilder} {img : ImageData}
    (h : b.Next img = (b', none)) :
    b' = { b with images := b.images ++ [img] } := by
  unfold EPubBuilder.Next at h
  split_ifs at h with h1 h2 h3
  · simp at h
  · simp at h
  · simp at h
  · simp only [Prod.mk.injEq] at h
    exact h.1.symm

/-- A successful `feedAll` run appends exactly the fed pages and touches
no other state. -/
theorem feedAll_ok (l : List ImageData) :
    ∀ b b' : EPubBuilder, feedAll b l = (b', none) →
      b'.images = b.images ++ l ∧ b'.epubInit = b.epubInit ∧
      b'.chapter = b.chapter ∧ b'.chapterCover = b.chapterCover := by
  induction l with
  | nil =>
    intro b b' h
    rw [feedAll] at h
    simp only [Prod.mk.injEq] at h
    rw [← h.1]
    simp
  | cons img rest ih =>
    intro b b' h
    rw [feedAll] at h
    rcases hn : b.Next img with ⟨b2, e⟩
    rw [hn] at h
    cases e with
    | none =>
      have hb2 := next_ok hn
      subst hb2
      have hrec := ih _ _ h
      simpa [List.append_assoc] using hrec
    | some e0 => simp at h

/-- C1: for a builder session whose `Init` succeeded and whose fed pages
carry pairwise-distinct ordinal indices, the page sequence embedded by
`Done` is a permutation of the fed pages that is strictly ascending in
ordinal index — regardless of the order in which `Next` was called. -/
theorem done_pages_sorted (b0 b1 b2 : EPubBuilder) (m : Manga) (c : Chapter)
    (l : List ImageData)
    (hinit : b0.Init (some m) (some c) = (b1, none))
    (hfeed : feedAll b1 l = (b2, none))
    (hdist : l.Pairwise fun a b => a.index ≠ b.index)
    (hne : l ≠ []) :
    ∃ r : DoneResult, (b2.Done).2 = Except.ok r ∧ r.pages.Perm l ∧
      (r.pages.map ImageData.index).Pairwise (· < ·) := by
  have hb1 : b1 = { b0 with
      manga := some m
      chapter := some c
      images := []
      chapterCover := none
      mangaCover := none
      epubInit := true } := by
    unfold EPubBuilder.Init at hinit
    simp only [Prod.mk.injEq] at hinit
    exact hinit.1.symm
  obtain ⟨him, hflag0, -, -⟩ := feedAll_ok l b1 b2 hfeed
  have himages : b2.images = l := by rw [him, hb1]; simp
  have hflag : b2.epubInit = true := by rw [hflag0, hb1]
  have hne2 : ¬ b2.images = [] := by rw [himages]; exact hne
  unfold EPubBuilder.Done
  rw [hflag]
  rw [if_neg (by simp), if_neg hne2]
  refine ⟨_, rfl, ?_, ?_⟩
  · rw [himages]
    exact List.perm_insertionSort imageLE l
  · have hsorted : (List.insertionSort imageLE b2.images).Pairwise imageLE :=
      List.sorted_insertionSort imageLE b2.images
    have hdist2 : (List.insertionSort imageLE b2.images).Pairwise
        fun a b => a.index ≠ b.index := by
      rw [himages]
      exact ((List.perm_insertionSort imageLE l).pairwise_iff
        fun h => h.symm).mpr hdist
    rw [List.pairwise_map]
    exact (hsorted.and hdist2).imp fun h => lt_of_le_of_ne h.1 h.2

/-- Pages fed out of order in the witness run. -/
def pagesW : List ImageData :=
  [⟨[1], "image/jpeg", 2⟩, ⟨[2], "image/jpeg", 0⟩, ⟨[3], "image/jpeg", 1⟩]

/-- Witness for `done_pages_sorted`: a concrete session fed three pages
with indices 2, 0, 1. -/
theorem done_pages_sorted_witness :
    ∃ r : DoneResult,
      ((feedAll ((NewEPubBuilder "out").Init (some mW) (some cW)).1 pagesW).1.Done).2 =
        Except.ok r ∧
      r.pages.Perm pagesW ∧ (r.pages.map ImageData.index).Pairwise (· < ·) :=
  done_pages_sorted (NewEPubBuilder "out")
    ((NewEPubBuilder "out").Init (some mW) (some cW)).1
    (feedAll ((NewEPubBuilder "out").Init (some mW) (some cW)).1 pagesW).1
    mW cW pagesW rfl (by decide) (by decide) (by decide)

/-! ## C3: batch status bookkeeping -/

/-- C3: when the initial save and the chapter-list resolution succeed,
`DownloadManga` itself returns no error whatever the per-chapter
outcomes, and the persisted series status is `"partial"` when at least
one chapter download failed and `"completed"` when none did. -/
theorem downloadManga_status (getRes : Except String (List Chapter))
    (chapterErr : Chapter → Option String) (repo : RepoState) (m : Manga)
    (given chs : List Chapter)
    (hres : (if given = [] then getRes else Except.ok given) = Except.ok chs) :
    (DownloadManga none none getRes chapterErr repo (some m) given).2 = Except.ok () ∧
    ((∃ c ∈ chs, (chapterErr c).isSome) →
      persistedStatus (DownloadManga none none getRes chapterErr repo (some m) given).1 =
        some "partial") ∧
    ((∀ c ∈ chs, chapterErr c = none) →
      persistedStatus (DownloadManga none none getRes chapterErr repo (some m) given).1 =
        some "completed") := by
  unfold DownloadManga
  simp only [saveManga, hres]
  refine ⟨by trivial, ?_, ?_⟩
  · rintro ⟨c, hc, hsome⟩
    have hne : chs.filterMap chapterErr ≠ [] := by
      intro h0
      rw [List.filterMap_eq_nil_iff] at h0
      rw [h0 c hc] at hsome
      simp at hsome
    simp only [persistedStatus, if_pos hne]
    simp
  · intro hall
    have heq : chs.filterMap chapterErr = [] :=
      List.filterMap_eq_nil_iff.mpr hall
    have hnn : ¬ chs.filterMap chapterErr ≠ [] := by simp [heq]
    simp only [persistedStatus, if_neg hnn]
    simp

/-- The failing chapter of the C3 witness run. -/
def cFail : Chapter := { cW with id := "bad" }

/-- Witness for `downloadManga_status`: two chapters, one failing — the
call returns no error and the persisted status is `"partial"`. -/
theorem downloadManga_status_witness :
    (DownloadManga none none (Except.error "unused")
        (fun c => if c.id = "bad" then some "boom" else none)
        ⟨[]⟩ (some mW) [cW, cFail]).2 = Except.ok () ∧
    persistedStatus (DownloadManga none none (Except.error "unused")
        (fun c => if c.id = "bad" then some "boom" else none)
        ⟨[]⟩ (some mW) [cW, cFail]).1 = some "partial" := by
  have h := downloadManga_status (Except.error "unused")
    (fun c => if c.id = "bad" then some "boom" else none)
    ⟨[]⟩ mW [cW, cFail] [cW, cFail] (by simp)
  exact ⟨h.1, h.2.1 ⟨cFail, by decide, by decide⟩⟩

/-! ## C7: target-dimension computation

The scaling in `calculateDimensions` runs in `float64`.  The lemmas below
first characterize `roundDouble`: exact evaluation at a point
(`roundDouble_eq`) and the relative-error bound
`|roundDouble q - q| ≤ q·2^(-53)` (`roundDouble_near`).  Rounding can
drop the binding dimension one pixel below its bound — the counterexample
below reproduces the IEEE-754 arithmetic exactly — while both dimensions
always stay within bounds and the binding one lands within one pixel of
its bound. -/

theorem roundHalfEven_near (m : ℚ) : |(roundHalfEven m : ℚ) - m| ≤ 1/2 := by
  have h0 : (⌊m⌋ : ℚ) ≤ m := Int.floor_le m
  have h1 : m < ⌊m⌋ + 1 := Int.lt_floor_add_one m
  unfold roundHalfEven
  split_ifs with ha hb hc
  · rw [abs_le]
    constructor <;> linarith
  · rw [abs_le]
    push_cast
    constructor <;> linarith
  · rw [abs_le]
    constructor <;> linarith [not_lt.mp ha, not_lt.mp hb]
  · rw [abs_le]
    push_cast
    constructor <;> linarith [not_lt.mp ha, not_lt.mp hb]

theorem int_log2_eq {q : ℚ} {e : ℤ} (hq : 0 < q)
    (h1 : (2:ℚ)^e ≤ q) (h2 : q < (2:ℚ)^(e+1)) :
    Int.log 2 q = e := by
  have hle : e ≤ Int.log 2 q := by
    rw [← Int.zpow_le_iff_le_log (by norm_num : (1:ℕ) < 2) hq]
    exact_mod_cast h1
  have hlt : Int.log 2 q < e + 1 := by
    rw [← Int.lt_zpow_iff_log_lt (by norm_num : (1:ℕ) < 2) hq]
    exact_mod_cast h2
  omega

theorem roundHalfEven_eq {m : ℚ} {n : ℤ} (h1 : (n:ℚ) - 1/2 < m)
    (h2 : m < (n:ℚ) + 1/2) : roundHalfEven m = n := by
  rcases le_or_lt (n:ℚ) m with hc | hc
  · have hfl : ⌊m⌋ = n := by
      rw [Int.floor_eq_iff]
      exact ⟨hc, by push_cast; linarith⟩
    unfold roundHalfEven
    rw [hfl, if_pos (by linarith)]
  · have hfl : ⌊m⌋ = n - 1 := by
      rw [Int.floor_eq_iff]
      constructor
      · push_cast
        linarith
      · push_cast
        linarith
    unfold roundHalfEven
    rw [hfl, if_neg (by push_cast; linarith), if_pos (by push_cast; linarith)]
    omega

theorem roundDouble_eq {q : ℚ} {e n : ℤ} (hq : 0 < q)
    (hlo : (2:ℚ)^e ≤ q) (hhi : q < (2:ℚ)^(e+1))
    (h1 : (n:ℚ) - 1/2 < q * 2^(52 - e)) (h2 : q * 2^(52 - e) < (n:ℚ) + 1/2) :
    roundDouble q = (n:ℚ) * 2^(e - 52) := by
  unfold roundDouble
  rw [if_neg hq.ne', if_neg (not_lt.mpr hq.le), int_log2_eq hq hlo hhi,
    roundHalfEven_eq h1 h2]

theorem roundDouble_near {q : ℚ} (hq : 0 < q) :
    |roundDouble q - q| ≤ q * 2^(-(53:ℤ)) := by
  have htwo : (2:ℚ) ≠ 0 := by norm_num
  have hlo : (2:ℚ)^(Int.log 2 q) ≤ q := by
    exact_mod_cast Int.zpow_log_le_self (by norm_num : (1:ℕ) < 2) hq
  have hc : (0:ℚ) < 2^(Int.log 2 q - 52) := by positivity
  unfold roundDouble
  rw [if_neg hq.ne', if_neg (not_lt.mpr hq.le)]
  have key : (roundHalfEven (q * 2^(52 - Int.log 2 q)) : ℚ) * 2^(Int.log 2 q - 52) - q
      = ((roundHalfEven (q * 2^(52 - Int.log 2 q)) : ℚ) - q * 2^(52 - Int.log 2 q)) *
        2^(Int.log 2 q - 52) := by
    rw [sub_mul, mul_assoc, ← zpow_add₀ htwo,
      show 52 - Int.log 2 q + (Int.log 2 q - 52) = 0 from by ring, zpow_zero, mul_one]
  rw [key, abs_mul, abs_of_pos hc]
  calc |(roundHalfEven (q * 2^(52 - Int.log 2 q)) : ℚ) - q * 2^(52 - Int.log 2 q)| *
        2^(Int.log 2 q - 52)
      ≤ (1/2) * 2^(Int.log 2 q - 52) :=
        mul_le_mul_of_nonneg_right (roundHalfEven_near _) hc.le
    _ = (2:ℚ)^(Int.log 2 q - 53) := by
        rw [show (1/2 : ℚ) = 2^(-(1:ℤ)) from by norm_num, ← zpow_add₀ htwo]
        congr 1
        ring
    _ = (2:ℚ)^(Int.log 2 q) * 2^(-(53:ℤ)) := by
        rw [sub_eq_add_neg, ← zpow_add₀ htwo]
    _ ≤ q * 2^(-(53:ℤ)) := mul_le_mul_of_nonneg_right hlo (by positivity)

theorem roundDouble_bounds {q : ℚ} (hq : 0 < q) :
    q * (1 - 2^(-(53:ℤ))) ≤ roundDouble q ∧
    roundDouble q ≤ q * (1 + 2^(-(53:ℤ))) := by
  have h := roundDouble_near hq
  rw [abs_le] at h
  constructor <;> nlinarith [h.1, h.2]

/-- A dimension scaled in `float64` and truncated never exceeds its
bound, provided the exact product is at most `bound·(1 + 2^(-53))`. -/
theorem scaled_dim_le {maxD d : ℤ} {scale : ℚ} (hd : 0 < d) (hmaxD : 0 < maxD)
    (hmax2 : maxD ≤ 2^40) (hscale : 0 < scale)
    (hsc : (d:ℚ) * scale ≤ (maxD:ℚ) * (1 + 2^(-(53:ℤ)))) :
    goIntOfRat (roundDouble ((d:ℚ) * scale)) ≤ maxD := by
  have hdq : (0:ℚ) < (d:ℚ) := by exact_mod_cast hd
  have hprod : (0:ℚ) < (d:ℚ) * scale := mul_pos hdq hscale
  have hb := roundDouble_bounds hprod
  have hεval : (2:ℚ)^(-(53:ℤ)) = 1/9007199254740992 := by norm_num
  have hmaxq : (0:ℚ) < (maxD:ℚ) := by exact_mod_cast hmaxD
  have hmax2q : (maxD:ℚ) ≤ 2^40 := by exact_mod_cast hmax2
  rw [hεval] at hb hsc
  have hub : roundDouble ((d:ℚ) * scale) < (maxD:ℚ) + 1 := by
    linarith [hb.2, hsc, hmax2q]
  have hpos : (0:ℚ) ≤ roundDouble ((d:ℚ) * scale) := by linarith [hb.1, hprod]
  unfold goIntOfRat
  rw [if_neg (not_lt.mpr hpos)]
  have hfl : ⌊roundDouble ((d:ℚ) * scale)⌋ < maxD + 1 :=
    Int.floor_lt.mpr (by push_cast; linarith [hub])
  omega

/-- A dimension scaled in `float64` and truncated lands at most one
pixel below its bound, provided the exact product is at least
`bound·(1 - 2^(-53))`. -/
theorem scaled_dim_ge {maxD d : ℤ} {scale : ℚ} (hd : 0 < d) (hmaxD : 0 < maxD)
    (hmax2 : maxD ≤ 2^40) (hscale : 0 < scale)
    (hsc : (maxD:ℚ) * (1 - 2^(-(53:ℤ))) ≤ (d:ℚ) * scale) :
    maxD - 1 ≤ goIntOfRat (roundDouble ((d:ℚ) * scale)) := by
  have hdq : (0:ℚ) < (d:ℚ) := by exact_mod_cast hd
  have hprod : (0:ℚ) < (d:ℚ) * scale := mul_pos hdq hscale
  have hb := roundDouble_bounds hprod
  have hεval : (2:ℚ)^(-(53:ℤ)) = 1/9007199254740992 := by norm_num
  have hmaxq : (0:ℚ) < (maxD:ℚ) := by exact_mod_cast hmaxD
  have hmax2q : (maxD:ℚ) ≤ 2^40 := by exact_mod_cast hmax2
  rw [hεval] at hb hsc
  have hlb : (maxD:ℚ) - 1 < roundDouble ((d:ℚ) * scale) := by
    linarith [hb.1, hsc, hmax2q]
  have hpos : (0:ℚ) ≤ roundDouble ((d:ℚ) * scale) := by linarith [hb.1, hprod]
  unfold goIntOfRat
  rw [if_neg (not_lt.mpr hpos)]
  exact Int.le_floor.mpr (by push_cast; linarith [hlb])

/-- C7 (amended): a source image already within the profile bounds keeps
its dimensions; an oversized one is scaled by the smaller of the two
bound ratios as computed in `float64`, truncated to integer pixels: both
resulting dimensions are at most their bounds, and the dimension whose
ratio was selected lands within one pixel of its bound (exactly on it in
ideal arithmetic; `float64` rounding can lose a single pixel). -/
theorem calculateDimensions_within_bounds (s : ImageOptimizationSettings) (w h : ℤ)
    (hw : 0 < w) (hh : 0 < h) (hmw : 0 < s.maxWidth) (hmh : 0 < s.maxHeight)
    (hmw2 : s.maxWidth ≤ 2^40) (hmh2 : s.maxHeight ≤ 2^40) :
    (w ≤ s.maxWidth ∧ h ≤ s.maxHeight → calculateDimensions s w h = (w, h)) ∧
    (¬(w ≤ s.maxWidth ∧ h ≤ s.maxHeight) →
      (calculateDimensions s w h).1 ≤ s.maxWidth ∧
      (calculateDimensions s w h).2 ≤ s.maxHeight ∧
      (s.maxWidth - 1 ≤ (calculateDimensions s w h).1 ∨
        s.maxHeight - 1 ≤ (calculateDimensions s w h).2)) := by
  have hwq : (0:ℚ) < (w:ℚ) := by exact_mod_cast hw
  have hhq : (0:ℚ) < (h:ℚ) := by exact_mod_cast hh
  have hmwq : (0:ℚ) < (s.maxWidth:ℚ) := by exact_mod_cast hmw
  have hmhq : (0:ℚ) < (s.maxHeight:ℚ) := by exact_mod_cast hmh
  have hε1 : (0:ℚ) < 1 - 2^(-(53:ℤ)) := by norm_num
  have hrW : (0:ℚ) < (s.maxWidth:ℚ)/(w:ℚ) := div_pos hmwq hwq
  have hrH : (0:ℚ) < (s.maxHeight:ℚ)/(h:ℚ) := div_pos hmhq hhq
  have hA := roundDouble_bounds hrW
  have hB := roundDouble_bounds hrH
  have hApos : (0:ℚ) < roundDouble ((s.maxWidth:ℚ)/(w:ℚ)) :=
    lt_of_lt_of_le (mul_pos hrW hε1) hA.1
  have hBpos : (0:ℚ) < roundDouble ((s.maxHeight:ℚ)/(h:ℚ)) :=
    lt_of_lt_of_le (mul_pos hrH hε1) hB.1
  have hwexact : (w:ℚ) * ((s.maxWidth:ℚ)/(w:ℚ)) = (s.maxWidth:ℚ) := by field_simp
  have hhexact : (h:ℚ) * ((s.maxHeight:ℚ)/(h:ℚ)) = (s.maxHeight:ℚ) := by field_simp
  constructor
  · intro hfit
    unfold calculateDimensions
    rw [if_pos hfit]
  · intro hnofit
    rcases lt_or_le (roundDouble ((s.maxHeight:ℚ)/(h:ℚ)))
        (roundDouble ((s.maxWidth:ℚ)/(w:ℚ))) with hcase | hcase
    · have hcd : calculateDimensions s w h =
          (goIntOfRat (roundDouble ((w:ℚ) * roundDouble ((s.maxHeight:ℚ)/(h:ℚ)))),
           goIntOfRat (roundDouble ((h:ℚ) * roundDouble ((s.maxHeight:ℚ)/(h:ℚ))))) := by
        unfold calculateDimensions
        rw [if_neg hnofit, if_pos hcase]
      have hhsc : (h:ℚ) * roundDouble ((s.maxHeight:ℚ)/(h:ℚ)) ≤
          (s.maxHeight:ℚ) * (1 + 2^(-(53:ℤ))) := by
        calc (h:ℚ) * roundDouble ((s.maxHeight:ℚ)/(h:ℚ))
            ≤ (h:ℚ) * (((s.maxHeight:ℚ)/(h:ℚ)) * (1 + 2^(-(53:ℤ)))) :=
              mul_le_mul_of_nonneg_left hB.2 hhq.le
          _ = (s.maxHeight:ℚ) * (1 + 2^(-(53:ℤ))) := by rw [← mul_assoc, hhexact]
      have hhsc2 : (s.maxHeight:ℚ) * (1 - 2^(-(53:ℤ))) ≤
          (h:ℚ) * roundDouble ((s.maxHeight:ℚ)/(h:ℚ)) := by
        calc (s.maxHeight:ℚ) * (1 - 2^(-(53:ℤ)))
            = (h:ℚ) * (((s.maxHeight:ℚ)/(h:ℚ)) * (1 - 2^(-(53:ℤ)))) := by
              rw [← mul_assoc, hhexact]
          _ ≤ (h:ℚ) * roundDouble ((s.maxHeight:ℚ)/(h:ℚ)) :=
              mul_le_mul_of_nonneg_left hB.1 hhq.le
      have hwsc : (w:ℚ) * roundDouble ((s.maxHeight:ℚ)/(h:ℚ)) ≤
          (s.maxWidth:ℚ) * (1 + 2^(-(53:ℤ))) := by
        calc (w:ℚ) * roundDouble ((s.maxHeight:ℚ)/(h:ℚ))
            ≤ (w:ℚ) * roundDouble ((s.maxWidth:ℚ)/(w:ℚ)) :=
              mul_le_mul_of_nonneg_left hcase.le hwq.le
          _ ≤ (w:ℚ) * (((s.maxWidth:ℚ)/(w:ℚ)) * (1 + 2^(-(53:ℤ)))) :=
              mul_le_mul_of_nonneg_left hA.2 hwq.le
          _ = (s.maxWidth:ℚ) * (1 + 2^(-(53:ℤ))) := by rw [← mul_assoc, hwexact]
      rw [hcd]
      exact ⟨scaled_dim_le hw hmw hmw2 hBpos hwsc,
        scaled_dim_le hh hmh hmh2 hBpos hhsc,
        Or.inr (scaled_dim_ge hh hmh hmh2 hBpos hhsc2)⟩
    · have hcd : calculateDimensions s w h =
          (goIntOfRat (roundDouble ((w:ℚ) * roundDouble ((s.maxWidth:ℚ)/(w:ℚ)))),
           goIntOfRat (roundDouble ((h:ℚ) * roundDouble ((s.maxWidth:ℚ)/(w:ℚ))))) := by
        unfold calculateDimensions
        rw [if_neg hnofit, if_neg (not_lt.mpr hcase)]
      have hwsc : (w:ℚ) * roundDouble ((s.maxWidth:ℚ)/(w:ℚ)) ≤
          (s.maxWidth:ℚ) * (1 + 2^(-(53:ℤ))) := by
        calc (w:ℚ) * roundDouble ((s.maxWidth:ℚ)/(w:ℚ))
            ≤ (w:ℚ) * (((s.maxWidth:ℚ)/(w:ℚ)) * (1 + 2^(-(53:ℤ)))) :=
              mul_le_mul_of_nonneg_left hA.2 hwq.le
          _ = (s.maxWidth:ℚ) * (1 + 2^(-(53:ℤ))) := by rw [← mul_assoc, hwexact]
      have hwsc2 : (s.maxWidth:ℚ) * (1 - 2^(-(53:ℤ))) ≤
          (w:ℚ) * roundDouble ((s.maxWidth:ℚ)/(w:ℚ)) := by
        calc (s.maxWidth:ℚ) * (1 - 2^(-(53:ℤ)))
            = (w:ℚ) * (((s.maxWidth:ℚ)/(w:ℚ)) * (1 - 2^(-(53:ℤ)))) := by
              rw [← mul_assoc, hwexact]
          _ ≤ (w:ℚ) * roundDouble ((s.maxWidth:ℚ)/(w:ℚ)) :=
              mul_le_mul_of_nonneg_left hA.1 hwq.le
      have hhsc : (h:ℚ) * roundDouble ((s.maxWidth:ℚ)/(w:ℚ)) ≤
          (s.maxHeight:ℚ) * (1 + 2^(-(53:ℤ))) := by
        calc (h:ℚ) * roundDouble ((s.maxWidth:ℚ)/(w:ℚ))
            ≤ (h:ℚ) * roundDouble ((s.maxHeight:ℚ)/(h:ℚ)) :=
              mul_le_mul_of_nonneg_left hcase hhq.le
          _ ≤ (h:ℚ) * (((s.maxHeight:ℚ)/(h:ℚ)) * (1 + 2^(-(53:ℤ)))) :=
              mul_le_mul_of_nonneg_left hB.2 hhq.le
          _ = (s.maxHeight:ℚ) * (1 + 2^(-(53:ℤ))) := by rw [← mul_assoc, hhexact]
      rw [hcd]
      exact ⟨scaled_dim_le hw hmw hmw2 hApos hwsc,
        scaled_dim_le hh hmh hmh2 hApos hhsc,
        Or.inl (scaled_dim_ge hw hmw hmw2 hApos hwsc2)⟩

/-- The optimization settings of the `kindle1` device profile (600×800
screen, DPI 167, grayscale e-ink). -/
def sK : ImageOptimizationSettings :=
  { maxWidth := 600
    maxHeight := 800
    quality := 85
    grayscale := true
    sharpen := true
    contrast := 11/10
    gamma := 9/10
    format := "jpeg"
    stripMetadata := true }

/-- The `float64` value of `600.0/1109` (mantissa 4873146576054639,
exponent −1): the significand `600·2^53/1109` rounds down. -/
theorem roundDouble_600_1109 :
    roundDouble ((600:ℚ)/1109) = 4873146576054639/9007199254740992 := by
  have h := roundDouble_eq
    (by norm_num : (0:ℚ) < 600/1109)
    (by norm_num : (2:ℚ)^(-1:ℤ) ≤ 600/1109)
    (by norm_num : (600:ℚ)/1109 < (2:ℚ)^((-1:ℤ)+1))
    (by norm_num : ((4873146576054639:ℤ):ℚ) - 1/2 < (600:ℚ)/1109 * 2^(52 - (-1:ℤ)))
    (by norm_num : (600:ℚ)/1109 * 2^(52 - (-1:ℤ)) < ((4873146576054639:ℤ):ℚ) + 1/2)
  rw [h]
  norm_num

/-- `1109 * double(600/1109)` in `float64`: exactly
`5277655813324799/2^43 = 599.99999999999988…` — one ulp below 600. -/
theorem roundDouble_w_product :
    roundDouble ((1109:ℚ) * (4873146576054639/9007199254740992)) =
      5277655813324799/8796093022208 := by
  have h := roundDouble_eq
    (by norm_num : (0:ℚ) < (1109:ℚ) * (4873146576054639/9007199254740992))
    (by norm_num : (2:ℚ)^(9:ℤ) ≤ (1109:ℚ) * (4873146576054639/9007199254740992))
    (by norm_num : (1109:ℚ) * (4873146576054639/9007199254740992) < (2:ℚ)^((9:ℤ)+1))
    (by norm_num : ((5277655813324799:ℤ):ℚ) - 1/2 <
      (1109:ℚ) * (4873146576054639/9007199254740992) * 2^(52 - (9:ℤ)))
    (by norm_num : (1109:ℚ) * (4873146576054639/9007199254740992) * 2^(52 - (9:ℤ)) <
      ((5277655813324799:ℤ):ℚ) + 1/2)
  rw [h]
  norm_num

/-- `500 * double(600/1109)` in `float64`: exactly
`4758932203178358/2^44 ≈ 270.514`. -/
theorem roundDouble_h_product :
    roundDouble ((500:ℚ) * (4873146576054639/9007199254740992)) =
      4758932203178358/17592186044416 := by
  have h := roundDouble_eq
    (by norm_num : (0:ℚ) < (500:ℚ) * (4873146576054639/9007199254740992))
    (by norm_num : (2:ℚ)^(8:ℤ) ≤ (500:ℚ) * (4873146576054639/9007199254740992))
    (by norm_num : (500:ℚ) * (4873146576054639/9007199254740992) < (2:ℚ)^((8:ℤ)+1))
    (by norm_num : ((4758932203178358:ℤ):ℚ) - 1/2 <
      (500:ℚ) * (4873146576054639/9007199254740992) * 2^(52 - (8:ℤ)))
    (by norm_num : (500:ℚ) * (4873146576054639/9007199254740992) * 2^(52 - (8:ℤ)) <
      ((4758932203178358:ℤ):ℚ) + 1/2)
  rw [h]
  norm_num

/-- At 1109×500 against the kindle1 bounds, the computed height scale
(1.6) is not below the computed width scale, so the width ratio is
selected. -/
theorem hs_not_lt_ws_1109_500 :
    ¬ (roundDouble ((800:ℚ)/500) < roundDouble ((600:ℚ)/1109)) := by
  have h1 := (roundDouble_bounds (by norm_num : (0:ℚ) < 800/500)).1
  rw [show (2:ℚ)^(-(53:ℤ)) = 1/9007199254740992 from by norm_num] at h1
  rw [roundDouble_600_1109]
  intro hlt
  linarith [h1, hlt]

/-- The full evaluation: kindle1 bounds, 1109×500 source, result
(599, 270) — reproducing Go's `float64` arithmetic bit for bit. -/
theorem calculateDimensions_1109_500 :
    calculateDimensions sK 1109 500 = (599, 270) := by
  have g1 : goIntOfRat (5277655813324799/8796093022208 : ℚ) = 599 := by
    unfold goIntOfRat
    rw [if_neg (by norm_num)]
    rw [Int.floor_eq_iff]
    constructor
    · push_cast
      norm_num
    · push_cast
      norm_num
  have g2 : goIntOfRat (4758932203178358/17592186044416 : ℚ) = 270 := by
    unfold goIntOfRat
    rw [if_neg (by norm_num)]
    rw [Int.floor_eq_iff]
    constructor
    · push_cast
      norm_num
    · push_cast
      norm_num
  unfold calculateDimensions
  rw [if_neg (by decide : ¬ ((1109:ℤ) ≤ sK.maxWidth ∧ (500:ℤ) ≤ sK.maxHeight))]
  simp only [sK]
  push_cast
  rw [if_neg hs_not_lt_ws_1109_500, roundDouble_600_1109,
    roundDouble_w_product, roundDouble_h_product, g1, g2]

/-- C7 (counterexample): at the kindle1 bounds 600×800 a 1109×500 source
is oversized; `float64` rounding makes the computed width scale slightly
less than `600/1109` and the product `1109 * scale` lands just below
600, so the result (599, 270) attains neither bound exactly and differs
from the ideal `⌊1109 · min(600/1109, 800/500)⌋ = 600`. -/
theorem calculateDimensions_misses_bound :
    ¬((1109:ℤ) ≤ sK.maxWidth ∧ (500:ℤ) ≤ sK.maxHeight) ∧
    calculateDimensions sK 1109 500 = (599, 270) ∧
    (calculateDimensions sK 1109 500).1 ≠ sK.maxWidth ∧
    (calculateDimensions sK 1109 500).2 ≠ sK.maxHeight ∧
    (calculateDimensions sK 1109 500).1 ≠
      ⌊(1109:ℚ) * min ((sK.maxWidth:ℚ)/1109) ((sK.maxHeight:ℚ)/500)⌋ := by
  have hfloor : ⌊(1109:ℚ) * min ((sK.maxWidth:ℚ)/1109) ((sK.maxHeight:ℚ)/500)⌋ = 600 := by
    simp only [sK]
    push_cast
    rw [min_eq_left (by norm_num : (600:ℚ)/1109 ≤ 800/500),
      show (1109:ℚ) * ((600:ℚ)/1109) = 600 from by norm_num]
    rw [Int.floor_eq_iff]
    constructor
    · push_cast
      norm_num
    · push_cast
      norm_num
  refine ⟨by decide, calculateDimensions_1109_500, ?_, ?_, ?_⟩
  · rw [calculateDimensions_1109_500]
    decide
  · rw [calculateDimensions_1109_500]
    decide
  · rw [calculateDimensions_1109_500, hfloor]
    decide

/-- Witness for `calculateDimensions_within_bounds`: an 80×90 image is
left unchanged; the oversized 1109×500 image stays within bounds with
the width within one pixel of its bound. -/
theorem calculateDimensions_within_bounds_witness :
    calculateDimensions sK 80 90 = (80, 90) ∧
    (calculateDimensions sK 1109 500).1 ≤ sK.maxWidth ∧
    (calculateDimensions sK 1109 500).2 ≤ sK.maxHeight ∧
    (sK.maxWidth - 1 ≤ (calculateDimensions sK 1109 500).1 ∨
      sK.maxHeight - 1 ≤ (calculateDimensions sK 1109 500).2) := by
  have h1 := (calculateDimensions_within_bounds sK 80 90 (by decide) (by decide)
    (by decide) (by decide) (by decide) (by decide)).1 (by decide)
  have h2 := (calculateDimensions_within_bounds sK 1109 500 (by decide) (by decide)
    (by decide) (by decide) (by decide) (by decide)).2 (by decide)
  exact ⟨h1, h2.1, h2.2.1, h2.2.2⟩

/-! ## C8: the gamma lookup table -/

/-- C8 (counterexample): at gamma 0.9 the source's table entry for 128
is 0 (its `pow` raises to the integer power `int(10·(1/0.9)) = 11`),
while `255·(128/255)^(1/0.9)` with the true real-valued power is at
least 15, so the entry does not equal the clamped true-power value under
any rounding of that real. -/
theorem gammaTable_not_true_power :
    gammaTableEntry (9/10) 128 = 0 ∧
    (15 : ℝ) ≤ 255 * ((128 : ℝ) / 255) ^ ((10 : ℝ) / 9) := by
  constructor
  · unfold gammaTableEntry powApprox
    norm_num
    rw [show Int.toNat 11 = 11 from rfl]
    rw [if_neg (by norm_num : ¬ (1:ℚ) < (128/255) ^ (11:ℕ))]
    have h2 : ⌊(255:ℚ) * (128 / 255) ^ (11:ℕ)⌋ < 1 := by
      rw [Int.floor_lt]
      push_cast
      norm_num
    omega
  · have hx0 : (0:ℝ) < 128/255 := by norm_num
    have hx1 : (128:ℝ)/255 ≤ 1 := by norm_num
    have h2 : ((10:ℝ)/9) ≤ 2 := by norm_num
    have hle := Real.rpow_le_rpow_of_exponent_ge hx0 hx1 h2
    rw [Real.rpow_two] at hle
    nlinarith [hle]

/-- C8 (amended): for a positive gamma with `1/gamma ∉ {1, 2}` and
`i ≤ 255`, the table entry is the truncation of
`255 · (i/255)^(int(10/gamma))` — the source's integer-power
approximation of the exponentiation, not the true power. -/
theorem gammaTable_approx (gamma : ℚ) (i : ℕ)
    (hpos : 0 < gamma) (hne1 : gamma ≠ 1) (hne2 : 1 / gamma ≠ 2) (hi : i ≤ 255) :
    gammaTableEntry gamma i = gammaTableEntryApprox gamma i := by
  have hy1 : (1 : ℚ) / gamma ≠ 1 := by
    intro hcontr
    apply hne1
    field_simp [hpos.ne'] at hcontr
    exact hcontr.symm
  have hypos : (0:ℚ) < 1 / gamma := by positivity
  have hynn : ¬ (1 : ℚ) / gamma < 0 := not_lt.mpr hypos.le
  have hexp : (1 / gamma) * 10 = (10:ℚ) / gamma := by ring
  have hx0 : (0:ℚ) ≤ (i:ℚ)/255 := by positivity
  have hx1 : (i:ℚ)/255 ≤ 1 := by
    rw [div_le_one (by norm_num)]
    exact_mod_cast hi
  have hp : ((i:ℚ)/255) ^ (⌊(10:ℚ)/gamma⌋).toNat ≤ 1 := pow_le_one₀ hx0 hx1
  have hb : 255 * ((i:ℚ)/255) ^ (⌊(10:ℚ)/gamma⌋).toNat ≤ 255 := by nlinarith [hp]
  unfold gammaTableEntry powApprox gammaTableEntryApprox
  simp only [if_neg hy1, if_neg hne2, if_neg hynn]
  rw [hexp]
  rw [if_neg (not_lt.mpr hb)]

/-- Witness for `gammaTable_approx` at gamma 0.9, entry 200. -/
theorem gammaTable_approx_witness :
    gammaTableEntry (9/10) 200 = gammaTableEntryApprox (9/10) 200 :=
  gammaTable_approx (9/10) 200 (by norm_num) (by norm_num) (by norm_num) (by norm_num)

/-- C6 (amended): for an image at least 3×3 in both dimensions, sharpen
leaves every outer-ring pixel byte-identical to the input and maps every
interior pixel to the clamped 3×3 convolution per channel (center weight
9, each of the eight neighbors −1, alpha copied from the center); because
of clamping and cancellation, an interior pixel with a non-uniform
neighborhood need not differ from the input. -/
theorem sharpen_border_and_kernel (img : GoImage) (x y : ℕ)
    (hw : 3 ≤ img.w) (hh : 3 ≤ img.h) (hx : x < img.w) (hy : y < img.h) :
    ((x = 0 ∨ x = img.w - 1 ∨ y = 0 ∨ y = img.h - 1) →
      (sharpen img).pix x y = img.pix x y) ∧
    (1 ≤ x → x + 1 < img.w → 1 ≤ y → y + 1 < img.h →
      (sharpen img).pix x y =
        { r := clamp (9 * ((img.pix x y).r : ℤ) -
            (((img.pix (x-1) (y-1)).r : ℤ) + ((img.pix x (y-1)).r : ℤ) +
             ((img.pix (x+1) (y-1)).r : ℤ) + ((img.pix (x-1) y).r : ℤ) +
             ((img.pix (x+1) y).r : ℤ) + ((img.pix (x-1) (y+1)).r : ℤ) +
             ((img.pix x (y+1)).r : ℤ) + ((img.pix (x+1) (y+1)).r : ℤ)))
          g := clamp (9 * ((img.pix x y).g : ℤ) -
            (((img.pix (x-1) (y-1)).g : ℤ) + ((img.pix x (y-1)).g : ℤ) +
             ((img.pix (x+1) (y-1)).g : ℤ) + ((img.pix (x-1) y).g : ℤ) +
             ((img.pix (x+1) y).g : ℤ) + ((img.pix (x-1) (y+1)).g : ℤ) +
             ((img.pix x (y+1)).g : ℤ) + ((img.pix (x+1) (y+1)).g : ℤ)))
          b := clamp (9 * ((img.pix x y).b : ℤ) -
            (((img.pix (x-1) (y-1)).b : ℤ) + ((img.pix x (y-1)).b : ℤ) +
             ((img.pix (x+1) (y-1)).b : ℤ) + ((img.pix (x-1) y).b : ℤ) +
             ((img.pix (x+1) y).b : ℤ) + ((img.pix (x-1) (y+1)).b : ℤ) +
             ((img.pix x (y+1)).b : ℤ) + ((img.pix (x+1) (y+1)).b : ℤ)))
          a := (img.pix x y).a }) := by
  have hat : ∀ u v, u < img.w → v < img.h → atPix img u v = img.pix u v := by
    intro u v hu hv
    unfold atPix
    rw [if_pos ⟨hu, hv⟩]
  constructor
  · intro hedge
    have hni : ¬(1 ≤ x ∧ x + 1 < img.w ∧ 1 ≤ y ∧ y + 1 < img.h) := by omega
    unfold sharpen
    simp only []
    rw [if_pos ⟨hx, hy⟩, if_neg hni, hat x y hx hy]
  · intro hx1 hx2 hy1 hy2
    have e1 : ((x:ℤ) + (-1:ℤ)).toNat = x - 1 := by omega
    have e3 : ((x:ℤ) + (1:ℤ)).toNat = x + 1 := by omega
    have e2 : ((x:ℤ) + (0:ℤ)).toNat = x := by omega
    have f1 : ((y:ℤ) + (-1:ℤ)).toNat = y - 1 := by omega
    have f3 : ((y:ℤ) + (1:ℤ)).toNat = y + 1 := by omega
    have f2 : ((y:ℤ) + (0:ℤ)).toNat = y := by omega
    have key : ∀ ch : Pixel → ℕ, sharpenChannel ch img x y =
        clamp (9 * (ch (img.pix x y) : ℤ) -
          ((ch (img.pix (x-1) (y-1)) : ℤ) + (ch (img.pix x (y-1)) : ℤ) +
           (ch (img.pix (x+1) (y-1)) : ℤ) + (ch (img.pix (x-1) y) : ℤ) +
           (ch (img.pix (x+1) y) : ℤ) + (ch (img.pix (x-1) (y+1)) : ℤ) +
           (ch (img.pix x (y+1)) : ℤ) + (ch (img.pix (x+1) (y+1)) : ℤ))) := by
      intro ch
      unfold sharpenChannel neighborSum neighborOffsets
      simp only [List.foldl_cons, List.foldl_nil]
      simp only [e1, e2, e3, f1, f2, f3]
      simp only [hat x y hx hy, hat (x-1) (y-1) (by omega) (by omega),
        hat x (y-1) (by omega) (by omega), hat (x+1) (y-1) (by omega) (by omega),
        hat (x-1) y (by omega) (by omega), hat (x+1) y (by omega) (by omega),
        hat (x-1) (y+1) (by omega) (by omega), hat x (y+1) (by omega) (by omega),
        hat (x+1) (y+1) (by omega) (by omega)]
      congr 1
      ring
    have hs : (sharpen img).pix x y =
        { r := sharpenChannel Pixel.r img x y
          g := sharpenChannel Pixel.g img x y
          b := sharpenChannel Pixel.b img x y
          a := (atPix img x y).a } := by
      unfold sharpen
      simp only []
      rw [if_pos ⟨hx, hy⟩, if_pos ⟨hx1, hx2, hy1, hy2⟩]
    rw [hs, key Pixel.r, key Pixel.g, key Pixel.b, hat x y hx hy]


/-- Witness for `sharpen_border_and_kernel`: a border pixel of the
concrete 3×3 image is copied unchanged. -/
theorem sharpen_border_and_kernel_witness :
    (sharpen cImg).pix 0 2 = cImg.pix 0 2 :=
  (sharpen_border_and_kernel cImg 0 2 (by decide) (by decide) (by decide)
    (by decide)).1 (by decide)

end Mangas
